import Mathlib

/-!
Shallow embedding of the fscache repository (Go) and proofs about its
claims.  Bytes are modelled as `Nat`, Go `int64` counters as `Int`
(overflow is unreachable for the quantities involved), files as lists of
bytes, and fallible operations return `Option`/pairs with an explicit
error value.  Mutex-protected critical sections of the source are
modelled as atomic steps; where claims concern interleavings, a labelled
step relation with one atomic step per critical section is used.
-/

namespace Fscache

/-- Error kinds surfaced by the modelled code: `eof` is Go io.EOF,
`errClosed` the os error for using a closed file, `alreadyClosed` the
"stream already closed" error of Writer.Close, `errRemoving` the
ErrRemoving of Stream.NextReader, `errFail` an injected I/O failure
(like badFile in stream_test.go), `errNotFound` the "file not found" of
cache.Size. -/
inductive Err where
  | eof
  | errClosed
  | alreadyClosed
  | errRemoving
  | errFail
  | errNotFound
deriving DecidableEq, Repr

/-- Model of an os-level file handle as used through the WriteFile
interface of fs.go: a byte content, a closed flag, an injected
close-failure knob (like badFile.Close in stream_test.go returning
errFail), and a count of how many times Close ran on it. -/
structure MFile where
  content : List Nat
  closed : Bool
  closeFails : Bool
  closeCount : Nat
deriving DecidableEq, Repr

/-- os.File.Write semantics: writing to a closed handle fails with no
bytes written; otherwise the bytes are appended and the full count is
returned. -/
def MFile.write (f : MFile) (p : List Nat) : Nat × Option Err × MFile :=
  if f.closed then (0, some Err.errClosed, f)
  else (p.length, none, { f with content := f.content ++ p })

/-- os.File.Close semantics: closing an already-closed handle fails;
otherwise the handle is marked closed (the injected knob decides whether
an error is reported, as with badFile). -/
def MFile.close (f : MFile) : Option Err × MFile :=
  if f.closed then (some Err.errClosed, f)
  else ((if f.closeFails then some Err.errFail else none),
        { f with closed := true, closeCount := f.closeCount + 1 })

/-- Model of Writer (src/writer.go): the closed flag and published size
guarded by the latch lock, the underlying WriteFile, and a count of
invocations of the on_close callback (which in stream.go is Stream.dec).
Critical sections are modelled as atomic. -/
structure MWriter where
  closed : Bool
  size : Int
  file : MFile
  onCloseCount : Nat
deriving DecidableEq, Repr

/-- Writer.Write (src/writer.go:29-38): under the exclusive lock,
delegate to the file; if any bytes were written advance the published
size by that count; broadcast.  There is no closed-check in the source:
rejection of writes after Close comes from the underlying file. -/
def MWriter.write (w : MWriter) (p : List Nat) : (Nat × Option Err) × MWriter :=
  let r := w.file.write p
  ((r.1, r.2.1),
   { w with
     file := r.2.2,
     size := if r.1 > 0 then w.size + r.1 else w.size })

/-- Writer.Close (src/writer.go:56-67): under the exclusive lock, fail
with the already-closed error if closed (state untouched); otherwise set
closed, broadcast, close the underlying file and invoke the on_close
callback (both always run; the callback is deferred in the source). -/
def MWriter.close (w : MWriter) : Option Err × MWriter :=
  if w.closed then (some Err.alreadyClosed, w)
  else
    let r := w.file.close
    (r.1, { w with closed := true, file := r.2, onCloseCount := w.onCloseCount + 1 })

/-- Writer.IsOpen (src/writer.go:50-52). -/
def MWriter.isOpen (w : MWriter) : Bool := !w.closed

/-- One operation applied to a Writer: a Write of a chunk of bytes or a
Close. -/
inductive WOp where
  | write (p : List Nat)
  | close
deriving DecidableEq, Repr

/-- Apply one operation to a Writer, dropping the returned values. -/
def applyWOp (w : MWriter) : WOp → MWriter
  | WOp.write p => (w.write p).2
  | WOp.close => (w.close).2

/-- Run a sequence of Write/Close operations on a Writer. -/
def runWriter (w : MWriter) : List WOp → MWriter
  | [] => w
  | op :: ops => runWriter (applyWOp w op) ops

/-- A Writer freshly constructed by NewWriter (src/writer.go:17-26) over
a freshly created file: not closed, size zero, empty content. -/
def freshWriter (closeFails : Bool) : MWriter :=
  { closed := false, size := 0,
    file := { content := [], closed := false, closeFails := closeFails, closeCount := 0 },
    onCloseCount := 0 }

/-- Writer.Wait (src/writer.go:40-47) loops on the condition variable
while `!closed && off >= size`, re-reading the state at each wake-up.
The states it observes (at entry and after each wake) are given as a
list; the loop returns at the first observed state where the stream is
closed or the published size exceeds `off`, yielding
`(size - off, !closed)`; `none` means every observed state kept it
asleep. -/
def waitRun (off : Int) : List (Int × Bool) → Option (Int × Bool)
  | [] => none
  | s :: rest =>
    if s.2 || off < s.1 then some (s.1 - off, !s.2) else waitRun off rest

/-- One call of ReadFile.Read on a file with the given full content,
reading from byte offset `off` into a buffer with `cap` bytes of room:
returns the bytes read and io.EOF when no byte is available at `off`
and the buffer has room (os.File returns (0, nil) for an empty
buffer). -/
def fileReadChunk (content : List Nat) (off cap : Nat) : List Nat × Option Err :=
  if 0 < ((content.drop off).take cap).length then ((content.drop off).take cap, none)
  else if 0 < cap then ([], some Err.eof)
  else ([], none)

/-- The loop of Reader.Read (src/unnamed/part_003:60-82) for a Reader
whose attached Writer performs no concurrent activity during the call
(its published `size` and `closed` flag are fixed, as is the file
content) — exactly the situation after Writer.Close.  `k` is the buffer
length, `off` the reader's cursor (`read_off`, which the source advances
in lockstep with the handle offset), `acc` the bytes placed in the
buffer so far.  Each iteration reads into the remaining buffer, then:
returns on progress with no error; on EOF calls Writer.Wait(read_off)
and returns EOF when it yields (0, false), looping otherwise (a Wait
whose guard never passes sleeps forever: `none`); returns any other
error; otherwise loops.  `none` models blocking or looping beyond the
given fuel. -/
def readLoop (content : List Nat) (size : Int) (closed : Bool) (k : Nat) :
    Nat → Nat → List Nat → Option (List Nat × Option Err × Nat)
  | 0, _, _ => none
  | fuel + 1, off, acc =>
    let rc := fileReadChunk content off (k - acc.length)
    let acc2 := acc ++ rc.1
    let off2 := off + rc.1.length
    if acc2.length ≠ 0 ∧ rc.2 = none then some (acc2, none, off2)
    else if rc.2 = some Err.eof then
      if closed || (off2 : Int) < size then
        if size - (off2 : Int) = 0 ∧ closed then some (acc2, some Err.eof, off2)
        else readLoop content size closed k fuel off2 acc2
      else none
    else if rc.2 ≠ none then some (acc2, rc.2, off2)
    else readLoop content size closed k fuel off2 acc2

/-- One Reader.Read call with buffer length `k` from cursor `off`,
given `fuel` loop iterations. -/
def readerRead (content : List Nat) (size : Int) (closed : Bool)
    (k fuel off : Nat) : Option (List Nat × Option Err × Nat) :=
  readLoop content size closed k fuel off []

/-- Repeatedly call Reader.Read with a buffer of length `k`, collecting
the bytes, until a Read reports io.EOF; `none` models a blocked or
non-terminating drain. -/
def drainLoop (content : List Nat) (size : Int) (closed : Bool) (k : Nat) :
    Nat → Nat → List Nat → Option (List Nat)
  | 0, _, _ => none
  | fuel + 1, off, acc =>
    match readerRead content size closed k 2 off with
    | none => none
    | some r =>
      if r.2.1 = some Err.eof then some (acc ++ r.1)
      else if r.2.1 = none then drainLoop content size closed k fuel (r.2.2) (acc ++ r.1)
      else none

/-- Model of Reader (src/unnamed/part_003:13-26) for its Close path: the
underlying ReadFile handle and the count of on_close callback
invocations (the callback is Stream.dec, which decrements the stream's
handle count). -/
structure MReader where
  file : MFile
  onCloseCount : Nat
deriving DecidableEq, Repr

/-- Reader.Close (src/unnamed/part_003:86-89): `defer r.on_close()`
followed by `return r.file.Close()` — the callback runs exactly once
whatever the file's Close returns, and the file's error is returned
verbatim. -/
def MReader.close (r : MReader) : Option Err × MReader :=
  let c := r.file.close
  (c.1, { r with file := c.2, onCloseCount := r.onCloseCount + 1 })

/-! ## Interleaving model of Stream.NextReader against Stream.Remove

src/stream.go (mutex version, lines 157-216).  Each atomic step is one
critical section of `s.mu` or one lock-free action.  `NextReader` is
NOT one critical section in the source: `isRemoving()` (178-184) locks,
reads the flag and unlocks, and only then does `inc()` (204-209) lock
again to bump `cnt` and `grp` — Remove (170-176) can run completely in
between. -/

/-- Program counter of a NextReader call: before the isRemoving check;
check passed (flag was false, no lock held); counted in via inc; reader
constructed (fs.Open succeeded); failed with ErrRemoving; or fs.Open
failed and dec ran. -/
inductive NrPc where
  | start
  | passed
  | inced
  | attached
  | failedRemoving
  | openFailed
deriving DecidableEq, Repr

/-- Program counter of a Remove call: before marking; flag set (mutex
released); grp.Wait returned; file unlinked. -/
inductive RmPc where
  | start
  | marked
  | waited
  | done
deriving DecidableEq, Repr

/-- Shared state of one Stream plus the two thread counters: the
removing flag and cnt guarded by `s.mu`, the WaitGroup counter `grp`,
and whether the underlying file still exists in the FileSystem. -/
structure RaceConfig where
  removing : Bool
  cnt : Int
  grp : Nat
  fileExists : Bool
  nr : NrPc
  rm : RmPc
deriving DecidableEq, Repr

/-- Atomic step labels: `nrCheck` is the isRemoving critical section,
`nrInc` the inc critical section, `nrOpen` the fs.Open call (running
dec on failure), `rmMark` the critical section setting the flag,
`rmWait` the return of grp.Wait (enabled only at a zero counter),
`rmUnlink` the fs.Remove call. -/
inductive RaceLabel where
  | nrCheck
  | nrInc
  | nrOpen
  | rmMark
  | rmWait
  | rmUnlink
deriving DecidableEq, Repr

/-- One atomic step of the NextReader/Remove interleaving, `none` when
the label is not enabled in the given configuration. -/
def raceStep (c : RaceConfig) : RaceLabel → Option RaceConfig
  | RaceLabel.nrCheck =>
    if c.nr = NrPc.start then
      some (if c.removing then { c with nr := NrPc.failedRemoving }
            else { c with nr := NrPc.passed })
    else none
  | RaceLabel.nrInc =>
    if c.nr = NrPc.passed then
      some { c with cnt := c.cnt + 1, grp := c.grp + 1, nr := NrPc.inced }
    else none
  | RaceLabel.nrOpen =>
    if c.nr = NrPc.inced then
      some (if c.fileExists then { c with nr := NrPc.attached }
            else { c with cnt := c.cnt - 1, grp := c.grp - 1, nr := NrPc.openFailed })
    else none
  | RaceLabel.rmMark =>
    if c.rm = RmPc.start then
      some { c with removing := true, rm := RmPc.marked }
    else none
  | RaceLabel.rmWait =>
    if c.rm = RmPc.marked ∧ c.grp = 0 then some { c with rm := RmPc.waited }
    else none
  | RaceLabel.rmUnlink =>
    if c.rm = RmPc.waited then
      some { c with fileExists := false, rm := RmPc.done }
    else none

/-- Run a list of labels from a configuration; `none` as soon as a
label is not enabled. -/
def raceRun (c : RaceConfig) : List RaceLabel → Option RaceConfig
  | [] => some c
  | l :: ls =>
    match raceStep c l with
    | none => none
    | some c2 => raceRun c2 ls

/-- A drained Stream (all earlier handles closed) whose file exists,
with one NextReader call and one Remove call about to run. -/
def raceInit : RaceConfig :=
  { removing := false, cnt := 0, grp := 0, fileExists := true,
    nr := NrPc.start, rm := RmPc.start }

/-! ## Interleaving model of cache.Get (src/fscache.go:207-235)

Get takes the registry read lock, looks the key up and on a hit returns
a new reader with a nil writer; on a miss it releases the read lock,
takes the write lock and — with no second lookup — creates a Stream with
its Writer, takes a reader on it, stores the Stream and returns it as
the writer.  Each lock-holding span is one atomic step. -/

/-- Look a digest up in the registry (the Go map indexing in
cache.getStream). -/
def regFind (reg : List (String × Nat)) (k : String) : Option Nat :=
  match reg with
  | [] => none
  | e :: rest => if e.1 = k then some e.2 else regFind rest k

/-- Store a digest in the registry, overwriting any previous entry (the
Go map assignment in cache.putStream). -/
def regPut (reg : List (String × Nat)) (k : String) (v : Nat) : List (String × Nat) :=
  match reg with
  | [] => [(k, v)]
  | e :: rest => if e.1 = k then (k, v) :: rest else e :: regPut rest k v

/-- cache.Exists (src/fscache.go:170-175): registry lookup only. -/
def cacheExists (reg : List (String × Nat)) (k : String) : Bool :=
  (regFind reg k).isSome

/-- Program counter of one Get call: before the shared-lock lookup;
missed (read lock released, about to take the write lock); returned. -/
inductive GPc where
  | start
  | missed
  | done
deriving DecidableEq, Repr

/-- One Get call: its program counter, the writer it returned (`none` =
absent, `some id` = the Stream with that id) and whether it got a
reader. -/
structure GetThread where
  pc : GPc
  writerOut : Option Nat
  gotReader : Bool
deriving DecidableEq, Repr

/-- Two Get calls racing on the same key (registry keyed by the key's
digest `dg`): the registry, a fresh-Stream id counter, and the two
threads. -/
structure CacheConfig where
  reg : List (String × Nat)
  nextId : Nat
  t1 : GetThread
  t2 : GetThread
deriving DecidableEq, Repr

/-- Step labels of the Get race: each thread's shared-lock section and
its exclusive-lock section. -/
inductive GetLabel where
  | lookupOne
  | lookupTwo
  | insertOne
  | insertTwo
deriving DecidableEq, Repr

/-- The shared-lock section of Get for one thread: look the digest up;
on a hit take a reader on the existing Stream and return it with a nil
writer; on a miss just fall through to the exclusive phase. -/
def getLookup (dg : String) (reg : List (String × Nat)) (t : GetThread) : GetThread :=
  if t.pc = GPc.start then
    match regFind reg dg with
    | some _ => { t with pc := GPc.done, writerOut := none, gotReader := true }
    | none => { t with pc := GPc.missed }
  else t

/-- One atomic step of the Get race; `none` when the label is not
enabled.  The exclusive section (insert) creates the Stream and its
Writer, takes a reader, stores the Stream under the digest and returns
it as the writer — with no re-lookup of the registry, exactly as in
src/fscache.go:217-235. -/
def getStep (dg : String) (c : CacheConfig) : GetLabel → Option CacheConfig
  | GetLabel.lookupOne =>
    if c.t1.pc = GPc.start then some { c with t1 := getLookup dg c.reg c.t1 } else none
  | GetLabel.lookupTwo =>
    if c.t2.pc = GPc.start then some { c with t2 := getLookup dg c.reg c.t2 } else none
  | GetLabel.insertOne =>
    if c.t1.pc = GPc.missed then
      some { c with
             reg := regPut c.reg dg c.nextId,
             nextId := c.nextId + 1,
             t1 := { pc := GPc.done, writerOut := some c.nextId, gotReader := true } }
    else none
  | GetLabel.insertTwo =>
    if c.t2.pc = GPc.missed then
      some { c with
             reg := regPut c.reg dg c.nextId,
             nextId := c.nextId + 1,
             t2 := { pc := GPc.done, writerOut := some c.nextId, gotReader := true } }
    else none

/-- Run a list of Get-race labels; `none` as soon as one is not
enabled. -/
def getRun (dg : String) (c : CacheConfig) : List GetLabel → Option CacheConfig
  | [] => some c
  | l :: ls =>
    match getStep dg c l with
    | none => none
    | some c2 => getRun dg c2 ls

/-- An empty registry (the key is absent) with both Get calls about to
start. -/
def getInit : CacheConfig :=
  { reg := [], nextId := 0,
    t1 := { pc := GPc.start, writerOut := none, gotReader := false },
    t2 := { pc := GPc.start, writerOut := none, gotReader := false } }

/-! ## Sequential model of the Get miss path and its error handling

src/fscache.go:217-235 with the Stream of src/stream.go (mutex
version).  `CreateStream` and `Stream.Close` are called there but their
definitions are not under src/; they are modelled from the spec
below. -/

/-- The FileSystem as the Get miss path sees it: whether the key's file
exists, and an injected Open failure (like badFs in stream_test.go,
whose Open returns errFail). -/
structure FsM where
  fileExists : Bool
  openFails : Bool
deriving DecidableEq, Repr

/-- Sequential state of one Stream: the removing flag, handle count,
WaitGroup counter, and the Writer attached to it (present and
open/closed). -/
structure SStream where
  removing : Bool
  cnt : Int
  grp : Nat
  hasWriter : Bool
  writerClosed : Bool
deriving DecidableEq, Repr

/-- Modelled from the spec: `CreateStream` (called at
src/fscache.go:149 but not defined under src/).  Per spec §4.5-§4.6 a
miss "creates a Stream … creates its Writer": the file is freshly
created (truncating), the Writer is attached and the handle count
incremented (GetWriter's inc). -/
def createStreamM (fs : FsM) : SStream × FsM :=
  ({ removing := false, cnt := 1, grp := 1, hasWriter := true, writerClosed := false },
   { fs with fileExists := true })

/-- Stream.NextReader (src/stream.go:189-202) run without interference:
fail with ErrRemoving if the flag is set; otherwise inc, Open the file,
and on Open failure dec and return the error. -/
def nextReaderM (s : SStream) (fs : FsM) : Option Err × SStream :=
  if s.removing then (some Err.errRemoving, s)
  else
    let s1 := { s with cnt := s.cnt + 1, grp := s.grp + 1 }
    if fs.fileExists ∧ ¬fs.openFails then (none, s1)
    else (some Err.errFail, { s1 with cnt := s1.cnt - 1, grp := s1.grp - 1 })

/-- Modelled from the spec: `Stream.Close` (called at
src/fscache.go:227 and 163 but not defined under src/).  Per spec §4.3
and the Writer lifecycle it closes the Stream's Writer if one is open,
whose on_close callback (Stream.dec) drops the handle count. -/
def streamCloseM (s : SStream) : SStream :=
  if s.hasWriter ∧ ¬s.writerClosed then
    { s with writerClosed := true, cnt := s.cnt - 1, grp := s.grp - 1 }
  else s

/-- Stream.Remove (src/stream.go:170-176) run without interference:
mark removing, wait for the WaitGroup to drain (`none` models a Remove
still blocked in grp.Wait), then unlink the file. -/
def streamRemoveM (s : SStream) (fs : FsM) : Option (SStream × FsM) :=
  let s1 := { s with removing := true }
  if s1.grp = 0 then some (s1, { fs with fileExists := false }) else none

/-- Outcome of the Get miss path: the returned error, whether a writer
was returned, the registry afterwards, the final Stream and FileSystem
states, and whether the path got stuck in Stream.Remove. -/
structure MissOutcome where
  err : Option Err
  gotWriter : Bool
  reg : List (String × Nat)
  stream : SStream
  fs : FsM
  blocked : Bool
deriving DecidableEq, Repr

/-- The miss branch of cache.Get (src/fscache.go:217-235): create the
Stream (with its Writer), take a reader on it; if that fails, Close the
Stream, Remove it and propagate the error without touching the
registry; on success store the Stream under the digest and return it as
the writer. -/
def getMissM (reg : List (String × Nat)) (dg : String) (fs : FsM) : MissOutcome :=
  let cs := createStreamM fs
  let nr := nextReaderM cs.1 cs.2
  match nr.1 with
  | none =>
    { err := none, gotWriter := true, reg := regPut reg dg 0,
      stream := nr.2, fs := cs.2, blocked := false }
  | some e =>
    let s2 := streamCloseM nr.2
    match streamRemoveM s2 cs.2 with
    | some p =>
      { err := some e, gotWriter := false, reg := reg,
        stream := p.1, fs := p.2, blocked := false }
    | none =>
      { err := some e, gotWriter := false, reg := reg,
        stream := s2, fs := cs.2, blocked := true }

/-! ## Reaper model (cache.haunt, src/fscache.go:103-123)

The Reaper interface value `grim` is not defined under src/, so the
Reap decision is an arbitrary parameter — the claim quantifies over it
anyway ("regardless of access times or age"). -/

/-- What haunt observes of one registered Stream while it holds the
registry's exclusive lock: the handle count (read by Stream.IsOpen,
src/stream.go:157-161), whether fs.AccessTimes succeeds, and the two
times it reports. -/
structure StreamObs where
  cnt : Int
  accessOk : Bool
  lastRead : Int
  lastWrite : Int
deriving DecidableEq, Repr

/-- Stream.IsOpen (src/stream.go:157-161): handle count > 0. -/
def obsIsOpen (s : StreamObs) : Bool := s.cnt > 0

/-- cache.haunt (src/fscache.go:103-123): under the registry's
exclusive lock, for every entry: skip it if IsOpen; skip it if
AccessTimes errors; if the Reaper says so, delete it from the registry
and Remove the Stream (unlinking its file).  Returns the surviving
registry and the keys whose entries were removed and files unlinked. -/
def haunt (reap : String → Int → Int → Bool) :
    List (String × StreamObs) → List (String × StreamObs) × List String
  | [] => ([], [])
  | e :: rest =>
    let r := haunt reap rest
    if obsIsOpen e.2 then (e :: r.1, r.2)
    else if !e.2.accessOk then (e :: r.1, r.2)
    else if reap e.1 e.2.lastRead e.2.lastWrite then (r.1, e.1 :: r.2)
    else (e :: r.1, r.2)

/-- A concrete already-closed Writer, for evaluating the double-close
path. -/
def sampleClosedWriter : MWriter :=
  { closed := true, size := 5,
    file := { content := [7], closed := true, closeFails := false, closeCount := 1 },
    onCloseCount := 1 }

/-- A concrete open file handle whose Close reports a failure. -/
def sampleFailFile : MFile :=
  { content := [], closed := false, closeFails := true, closeCount := 0 }

/-- A concrete Reader over a file whose Close fails. -/
def sampleFailReader : MReader :=
  { file := sampleFailFile, onCloseCount := 0 }

/-- A concrete open Writer over a file whose Close fails. -/
def sampleFailWriter : MWriter :=
  { closed := false, size := 0, file := sampleFailFile, onCloseCount := 0 }

/-- A concrete one-entry reaper observation with one live handle. -/
def sampleOpenObs : StreamObs :=
  { cnt := 1, accessOk := true, lastRead := 0, lastWrite := 0 }

/-- A concrete FileSystem whose Open fails, like badFs in
stream_test.go. -/
def sampleBadFs : FsM :=
  { fileExists := false, openFails := true }

/-! ## Theorems -/

/-- Every key that a haunt tick removes was a key of the registry it
walked. -/
theorem haunt_removed_mem (reap : String → Int → Int → Bool)
    (l : List (String × StreamObs)) (k : String)
    (h : k ∈ (haunt reap l).2) : k ∈ l.map Prod.fst := by
  induction l with
  | nil => simp [haunt] at h
  | cons e rest ih =>
    simp only [haunt] at h
    split at h
    · exact List.mem_cons_of_mem _ (ih h)
    · split at h
      · exact List.mem_cons_of_mem _ (ih h)
      · split at h
        · rcases List.mem_cons.mp h with h2 | h2
          · simp [h2]
          · exact List.mem_cons_of_mem _ (ih h2)
        · exact List.mem_cons_of_mem _ (ih h)

/-- C5: on every reaper tick, every registered Stream whose live-handle
count is greater than zero is skipped — it stays in the registry and its
file is not removed — whatever the Reap decision function and the access
times say (cache.haunt, src/fscache.go:103-123; Stream.IsOpen,
src/stream.go:157-161). -/
theorem reaper_skips_in_use (reap : String → Int → Int → Bool)
    (streams : List (String × StreamObs)) (key : String) (s : StreamObs)
    (hmem : (key, s) ∈ streams) (hcnt : 0 < s.cnt)
    (hnodup : (streams.map Prod.fst).Nodup) :
    (key, s) ∈ (haunt reap streams).1 ∧ key ∉ (haunt reap streams).2 := by
  induction streams with
  | nil => simp at hmem
  | cons e rest ih =>
    have hnd2 : (rest.map Prod.fst).Nodup := (List.nodup_cons.mp hnodup).2
    rcases List.mem_cons.mp hmem with he | hmem2
    · have hopen : obsIsOpen e.2 = true := by
        subst he; simpa [obsIsOpen] using hcnt
      have hkey : key = e.1 := by rw [← he]
      constructor
      · simp only [haunt, hopen, if_true]
        exact he ▸ List.mem_cons_self _ _
      · simp only [haunt, hopen, if_true]
        intro hk
        have := haunt_removed_mem reap rest key hk
        have hnot : e.1 ∉ rest.map Prod.fst := (List.nodup_cons.mp hnodup).1
        exact hnot (hkey ▸ this)
    · have hrec := ih hmem2 hnd2
      have hkmem : key ∈ rest.map Prod.fst :=
        List.mem_map_of_mem Prod.fst hmem2
      have hne : key ≠ e.1 := by
        intro hkey
        exact (List.nodup_cons.mp hnodup).1 (hkey ▸ hkmem)
      constructor
      · simp only [haunt]
        split
        · exact List.mem_cons_of_mem _ hrec.1
        · split
          · exact List.mem_cons_of_mem _ hrec.1
          · split
            · exact hrec.1
            · exact List.mem_cons_of_mem _ hrec.1
      · simp only [haunt]
        split
        · exact hrec.2
        · split
          · exact hrec.2
          · split
            · intro hk
              rcases List.mem_cons.mp hk with h2 | h2
              · exact hne h2
              · exact hrec.2 h2
            · exact hrec.2

/-- C5 witness: a one-entry registry whose stream has one live handle
survives a tick whose Reap decision is always "evict". -/
theorem reaper_skips_in_use_witness :
    ("k", sampleOpenObs) ∈ (haunt (fun _ _ _ => true) [("k", sampleOpenObs)]).1 ∧
    "k" ∉ (haunt (fun _ _ _ => true) [("k", sampleOpenObs)]).2 :=
  reaper_skips_in_use (fun _ _ _ => true) [("k", sampleOpenObs)]
    "k" sampleOpenObs (by simp) (by decide) (by simp)

/-- C7: Writer.Wait(off) (src/writer.go:40-47) returns only at an
observed state where the stream is closed or the published size exceeds
off, and there it returns (size − off, not closed); moreover when the
state at entry already has off below the published size it returns from
that very state, without sleeping. -/
theorem wait_correct (off : Int) (states : List (Int × Bool)) (res : Int × Bool)
    (h : waitRun off states = some res) :
    (∃ s, s ∈ states ∧ (s.2 = true ∨ off < s.1) ∧ res = (s.1 - off, !s.2)) ∧
    (∀ (size : Int) (closed : Bool) (rest : List (Int × Bool)), off < size →
      waitRun off ((size, closed) :: rest) = some (size - off, !closed)) := by
  constructor
  · induction states with
    | nil => simp [waitRun] at h
    | cons s0 rest ih =>
      simp only [waitRun] at h
      split at h
      · rename_i hcond
        refine ⟨s0, List.mem_cons_self _ _, ?_, by simpa using h.symm⟩
        rcases Bool.or_eq_true_iff.mp hcond with h1 | h1
        · exact Or.inl h1
        · exact Or.inr (by simpa using h1)
      · rcases ih h with ⟨s, hs, hc, hr⟩
        exact ⟨s, List.mem_cons_of_mem _ hs, hc, hr⟩
  · intro size closed rest hlt
    simp [waitRun, hlt]

/-- C7 witness: Wait(1) at an observed state (size 3, open) returns
immediately with (2, true). -/
theorem wait_correct_witness :
    (∃ s, s ∈ [((3 : Int), false)] ∧ (s.2 = true ∨ (1 : Int) < s.1) ∧
      ((2 : Int), true) = (s.1 - 1, !s.2)) ∧
    (∀ (size : Int) (closed : Bool) (rest : List (Int × Bool)), (1 : Int) < size →
      waitRun 1 ((size, closed) :: rest) = some (size - 1, !closed)) :=
  wait_correct 1 [((3 : Int), false)] ((2 : Int), true) rfl

/-- C9: Writer.Close on an already-closed Writer
(src/writer.go:56-67) fails with the already-closed error and leaves the
Writer exactly as it was: the on_close callback count and the underlying
file's close count are untouched. -/
theorem writer_double_close_error (w : MWriter) (h : w.closed = true) :
    (MWriter.close w).1 = some Err.alreadyClosed ∧
    (MWriter.close w).2 = w ∧
    (MWriter.close w).2.onCloseCount = w.onCloseCount ∧
    (MWriter.close w).2.file.closeCount = w.file.closeCount := by
  simp [MWriter.close, h]

/-- C9 witness: double close of a concrete closed Writer. -/
theorem writer_double_close_error_witness :
    (MWriter.close sampleClosedWriter).1 = some Err.alreadyClosed ∧
    (MWriter.close sampleClosedWriter).2 = sampleClosedWriter ∧
    (MWriter.close sampleClosedWriter).2.onCloseCount = sampleClosedWriter.onCloseCount ∧
    (MWriter.close sampleClosedWriter).2.file.closeCount = sampleClosedWriter.file.closeCount :=
  writer_double_close_error sampleClosedWriter rfl

/-- C10: Reader.Close (src/unnamed/part_003:86-89) invokes the on_close
callback (Stream.dec, which drops the handle count) exactly once and
returns the file's Close error verbatim, even when that Close fails; the
first Close of a Writer (src/writer.go:56-67) likewise invokes its
callback exactly once whatever the file's Close returns.  A failing file
Close therefore cannot leave the handle count elevated. -/
theorem close_callback_exactly_once (r : MReader) (w : MWriter)
    (h : w.closed = false) :
    (MReader.close r).2.onCloseCount = r.onCloseCount + 1 ∧
    (MReader.close r).1 = (MFile.close r.file).1 ∧
    (MWriter.close w).2.onCloseCount = w.onCloseCount + 1 ∧
    (MWriter.close w).1 = (MFile.close w.file).1 := by
  simp [MReader.close, MWriter.close, h]

/-- C10 witness: closes whose underlying file Close fails (closeFails)
still run the callback exactly once and surface the failure. -/
theorem close_callback_exactly_once_witness :
    (MReader.close sampleFailReader).2.onCloseCount = sampleFailReader.onCloseCount + 1 ∧
    (MReader.close sampleFailReader).1 = (MFile.close sampleFailReader.file).1 ∧
    (MWriter.close sampleFailWriter).2.onCloseCount = sampleFailWriter.onCloseCount + 1 ∧
    (MWriter.close sampleFailWriter).1 = (MFile.close sampleFailWriter.file).1 :=
  close_callback_exactly_once sampleFailReader sampleFailWriter rfl

/-- One Writer operation never decreases the published size. -/
theorem applyWOp_size_mono (w : MWriter) (op : WOp) : w.size ≤ (applyWOp w op).size := by
  cases op with
  | write p =>
    simp only [applyWOp, MWriter.write, MFile.write]
    by_cases h : w.file.closed
    · simp [h]
    · simp only [h, Bool.false_eq_true, if_false]
      split
      · have : (0 : Int) ≤ (p.length : Int) := Int.ofNat_nonneg _
        omega
      · exact le_refl _
  | close =>
    simp only [applyWOp, MWriter.close]
    split <;> simp

/-- The published size never decreases over a run of Writer
operations. -/
theorem runWriter_size_mono (ops : List WOp) : ∀ w : MWriter, w.size ≤ (runWriter w ops).size := by
  induction ops with
  | nil => intro w; exact le_refl _
  | cons op t ih => intro w; exact le_trans (applyWOp_size_mono w op) (ih _)

/-- Running a concatenation of operation lists runs the first then the
second. -/
theorem runWriter_append (a b : List WOp) : ∀ w, runWriter w (a ++ b) = runWriter (runWriter w a) b := by
  induction a with
  | nil => intro w; rfl
  | cons op t ih => intro w; simp only [List.cons_append, runWriter]; exact ih _

/-- Once the Writer and its file are both closed, every further
operation is a no-op on the Writer's state. -/
theorem applyWOp_closed_fixed (w : MWriter) (op : WOp)
    (h1 : w.closed = true) (h2 : w.file.closed = true) : applyWOp w op = w := by
  cases op with
  | write p => simp [applyWOp, MWriter.write, MFile.write, h2]
  | close => simp [applyWOp, MWriter.close, h1]

/-- Once the Writer and its file are both closed, every further run of
operations leaves the state untouched. -/
theorem runWriter_closed_fixed (ops : List WOp) :
    ∀ w : MWriter, w.closed = true → w.file.closed = true → runWriter w ops = w := by
  induction ops with
  | nil => intro w _ _; rfl
  | cons op t ih =>
    intro w h1 h2
    simp only [runWriter, applyWOp_closed_fixed w op h1 h2]
    exact ih w h1 h2

/-- A successful Writer.Close closes the Writer and its file and leaves
the published size untouched. -/
theorem writer_close_success (w : MWriter) (h : w.closed = false) :
    (MWriter.close w).2.closed = true ∧ (MWriter.close w).2.file.closed = true ∧
    (MWriter.close w).2.size = w.size := by
  by_cases h2 : w.file.closed <;> simp [MWriter.close, MFile.close, h, h2]

/-- C6: over every sequence of Write/Close operations the published
size is monotone non-decreasing (compare it at any two points of the
run), and once a Close has succeeded no further operation changes the
Writer's state — in particular its published size
(Writer.Write src/writer.go:29-38, Writer.Close src/writer.go:56-67). -/
theorem writer_size_monotone_frozen (w : MWriter) (ops1 ops2 : List WOp)
    (h : w.closed = false) :
    (runWriter w ops1).size ≤ (runWriter w (ops1 ++ ops2)).size ∧
    (MWriter.close w).2.size = w.size ∧
    runWriter (MWriter.close w).2 ops2 = (MWriter.close w).2 := by
  refine ⟨?_, (writer_close_success w h).2.2, ?_⟩
  · rw [runWriter_append]
    exact runWriter_size_mono ops2 _
  · exact runWriter_closed_fixed ops2 _ (writer_close_success w h).1 (writer_close_success w h).2.1

/-- C6 witness: a fresh Writer, one Write, then more operations after
the Close. -/
theorem writer_size_monotone_frozen_witness :
    (runWriter (freshWriter false) [WOp.write [1]]).size ≤
      (runWriter (freshWriter false) ([WOp.write [1]] ++ [WOp.write [2], WOp.close])).size ∧
    (MWriter.close (freshWriter false)).2.size = (freshWriter false).size ∧
    runWriter (MWriter.close (freshWriter false)).2 [WOp.write [2], WOp.close] =
      (MWriter.close (freshWriter false)).2 :=
  writer_size_monotone_frozen (freshWriter false) [WOp.write [1]] [WOp.write [2], WOp.close] rfl

/-- C8: when reader creation fails on the miss path of cache.Get
(src/fscache.go:217-235), the error is propagated, no writer is handed
out, the registry is left untouched (so Exists on a previously-absent
key stays false), and the partially-created Stream is torn down: its
Writer is closed, its handle count is zero, it is marked removing and
its file is unlinked, with Stream.Remove not blocking. -/
theorem get_miss_reader_failure_atomic (reg : List (String × Nat)) (dg : String) (fs : FsM)
    (h : fs.openFails = true) :
    (getMissM reg dg fs).err = some Err.errFail ∧
    (getMissM reg dg fs).gotWriter = false ∧
    (getMissM reg dg fs).reg = reg ∧
    (regFind reg dg = none → cacheExists (getMissM reg dg fs).reg dg = false) ∧
    (getMissM reg dg fs).stream.writerClosed = true ∧
    (getMissM reg dg fs).stream.cnt = 0 ∧
    (getMissM reg dg fs).stream.removing = true ∧
    (getMissM reg dg fs).fs.fileExists = false ∧
    (getMissM reg dg fs).blocked = false := by
  refine ⟨?_, ?_, ?_, ?_, ?_, ?_, ?_, ?_, ?_⟩ <;>
    simp [getMissM, createStreamM, nextReaderM, streamCloseM, streamRemoveM, h, cacheExists]

/-- C8 witness: the miss path against a FileSystem whose Open fails,
starting from an empty registry. -/
theorem get_miss_reader_failure_atomic_witness :
    (getMissM [] "k" sampleBadFs).err = some Err.errFail ∧
    (getMissM [] "k" sampleBadFs).gotWriter = false ∧
    (getMissM [] "k" sampleBadFs).reg = [] ∧
    (regFind [] "k" = none → cacheExists (getMissM [] "k" sampleBadFs).reg "k" = false) ∧
    (getMissM [] "k" sampleBadFs).stream.writerClosed = true ∧
    (getMissM [] "k" sampleBadFs).stream.cnt = 0 ∧
    (getMissM [] "k" sampleBadFs).stream.removing = true ∧
    (getMissM [] "k" sampleBadFs).fs.fileExists = false ∧
    (getMissM [] "k" sampleBadFs).blocked = false :=
  get_miss_reader_failure_atomic [] "k" sampleBadFs rfl

/-- Running a list of Writes on an open Writer whose size matches its
content appends all the chunks and keeps size = content length. -/
theorem runWriter_writes (chunks : List (List Nat)) :
    ∀ (c : List Nat) (cf : Bool),
      runWriter
        { closed := false, size := (c.length : Int),
          file := { content := c, closed := false, closeFails := cf, closeCount := 0 },
          onCloseCount := 0 } (chunks.map WOp.write) =
      { closed := false, size := ((c ++ chunks.flatten).length : Int),
        file := { content := c ++ chunks.flatten, closed := false,
                  closeFails := cf, closeCount := 0 },
        onCloseCount := 0 } := by
  induction chunks with
  | nil => intro c cf; simp [runWriter]
  | cons p t ih =>
    intro c cf
    simp only [List.map_cons, runWriter, applyWOp, MWriter.write, MFile.write]
    have hsize : (if 0 < p.length then (c.length : Int) + (p.length : Int)
        else (c.length : Int)) = ((c ++ p).length : Int) := by
      split
      · simp [List.length_append]
      · rename_i hp
        have hp0 : p.length = 0 := by omega
        simp [List.length_append, hp0]
    simp only [Bool.false_eq_true, if_false, gt_iff_lt]
    rw [hsize]
    rw [ih (c ++ p) cf]
    simp [List.append_assoc]

/-- The full producer run of C2: write the chunks on a fresh Writer,
then Close; the file holds exactly the concatenation, the published
size equals its length, and Writer and file are closed. -/
theorem writer_run_spec (chunks : List (List Nat)) (cf : Bool) :
    runWriter (freshWriter cf) (chunks.map WOp.write ++ [WOp.close]) =
      { closed := true, size := (chunks.flatten.length : Int),
        file := { content := chunks.flatten, closed := true,
                  closeFails := if cf then true else false, closeCount := 1 },
        onCloseCount := 1 } := by
  rw [runWriter_append]
  have h0 := runWriter_writes chunks [] cf
  simp only [List.nil_append, List.length_nil, Nat.cast_zero] at h0
  have hfresh : freshWriter cf =
      { closed := false, size := ((0 : Nat) : Int),
        file := { content := [], closed := false, closeFails := cf, closeCount := 0 },
        onCloseCount := 0 } := by
    simp [freshWriter]
  rw [hfresh]
  simp only [Nat.cast_zero] at h0 ⊢
  rw [h0]
  cases cf <;> simp [runWriter, applyWOp, MWriter.close, MFile.close]

/-- One unfolding step of the Reader.Read loop, at a compound fuel. -/
theorem readLoop_succ (content : List Nat) (size : Int) (closed : Bool) (k fuel off : Nat)
    (acc : List Nat) :
    readLoop content size closed k (fuel + 1) off acc =
      (if (acc ++ (fileReadChunk content off (k - acc.length)).1).length ≠ 0 ∧
           (fileReadChunk content off (k - acc.length)).2 = none then
         some (acc ++ (fileReadChunk content off (k - acc.length)).1, none,
               off + (fileReadChunk content off (k - acc.length)).1.length)
       else if (fileReadChunk content off (k - acc.length)).2 = some Err.eof then
         if closed || ((off + (fileReadChunk content off (k - acc.length)).1.length : Nat) : Int) < size then
           if size - ((off + (fileReadChunk content off (k - acc.length)).1.length : Nat) : Int) = 0 ∧ closed then
             some (acc ++ (fileReadChunk content off (k - acc.length)).1, some Err.eof,
                   off + (fileReadChunk content off (k - acc.length)).1.length)
           else readLoop content size closed k fuel
                  (off + (fileReadChunk content off (k - acc.length)).1.length)
                  (acc ++ (fileReadChunk content off (k - acc.length)).1)
         else none
       else if (fileReadChunk content off (k - acc.length)).2 ≠ none then
         some (acc ++ (fileReadChunk content off (k - acc.length)).1,
               (fileReadChunk content off (k - acc.length)).2,
               off + (fileReadChunk content off (k - acc.length)).1.length)
       else readLoop content size closed k fuel
              (off + (fileReadChunk content off (k - acc.length)).1.length)
              (acc ++ (fileReadChunk content off (k - acc.length)).1)) := rfl

/-- One unfolding step of the drain loop, at a compound fuel. -/
theorem drainLoop_succ (content : List Nat) (size : Int) (closed : Bool) (k fuel off : Nat)
    (acc : List Nat) :
    drainLoop content size closed k (fuel + 1) off acc =
      (match readerRead content size closed k 2 off with
       | none => none
       | some r =>
         if r.2.1 = some Err.eof then some (acc ++ r.1)
         else if r.2.1 = none then drainLoop content size closed k fuel r.2.2 (acc ++ r.1)
         else none) := rfl

/-- Reading at an offset strictly inside the content with a nonempty
buffer returns the available prefix of the buffer size. -/
theorem fileReadChunk_data (B : List Nat) (off k : Nat) (h1 : off < B.length) (h2 : 0 < k) :
    fileReadChunk B off k = ((B.drop off).take k, none) := by
  have hlen : 0 < ((B.drop off).take k).length := by
    simp only [List.length_take, List.length_drop]
    omega
  unfold fileReadChunk
  rw [if_pos hlen]

/-- Reading at or past the end of the content with a nonempty buffer
returns io.EOF. -/
theorem fileReadChunk_eof (B : List Nat) (off k : Nat) (h1 : B.length ≤ off) (h2 : 0 < k) :
    fileReadChunk B off k = ([], some Err.eof) := by
  have hnil : B.drop off = [] := List.drop_eq_nil_of_le h1
  simp [fileReadChunk, hnil, h2]

/-- A Reader.Read on a closed stream at an offset strictly inside the
content returns the available bytes in one iteration, no blocking. -/
theorem readerRead_data (B : List Nat) (k off : Nat) (h1 : off < B.length) (hk : 0 < k) :
    readerRead B (B.length : Int) true k 2 off =
      some ((B.drop off).take k, none, off + ((B.drop off).take k).length) := by
  have hchunk : fileReadChunk B off (k - List.length ([] : List Nat)) = ((B.drop off).take k, none) := by
    simpa using fileReadChunk_data B off k h1 hk
  have hlen : 0 < ((B.drop off).take k).length := by
    simp only [List.length_take, List.length_drop]
    omega
  rw [readerRead, readLoop_succ, hchunk]
  simp only [List.nil_append]
  rw [if_pos]
  exact ⟨by omega, trivial⟩

/-- A Reader.Read on a closed stream with the cursor at the end returns
(0, EOF) in one iteration: Wait returns immediately with (0, false). -/
theorem readerRead_eof (B : List Nat) (k : Nat) (hk : 0 < k) :
    readerRead B (B.length : Int) true k 2 B.length = some ([], some Err.eof, B.length) := by
  have hchunk : fileReadChunk B B.length (k - List.length ([] : List Nat)) = ([], some Err.eof) := by
    simpa using fileReadChunk_eof B B.length k (le_refl _) hk
  rw [readerRead, readLoop_succ, hchunk]
  simp

/-- The chunk a bounded read returns, glued to the rest of the content
after it, restores the content after the cursor. -/
theorem take_drop_append (B : List Nat) (off k : Nat) :
    (B.drop off).take k ++ B.drop (off + ((B.drop off).take k).length) = B.drop off := by
  have hdd : B.drop (off + ((B.drop off).take k).length) =
      (B.drop off).drop (((B.drop off).take k).length) := by
    rw [List.drop_drop]
  rw [hdd]
  by_cases hkl : k ≤ (B.drop off).length
  · have hl : ((B.drop off).take k).length = k := by
      simp only [List.length_take]
      omega
    rw [hl, List.take_append_drop]
  · have hall : (B.drop off).take k = B.drop off :=
      List.take_of_length_le (by omega)
    rw [hall, List.drop_length, List.append_nil]

/-- Draining a closed stream from any cursor position at or before the
end yields exactly the remaining bytes, with fuel one more than the
bytes left. -/
theorem drain_spec (B : List Nat) (k : Nat) (hk : 0 < k) :
    ∀ (n off : Nat) (acc : List Nat), B.length - off ≤ n → off ≤ B.length →
      drainLoop B (B.length : Int) true k (n + 1) off acc = some (acc ++ B.drop off) := by
  intro n
  induction n with
  | zero =>
    intro off acc h1 h2
    have hoff : off = B.length := by omega
    subst hoff
    rw [drainLoop_succ, readerRead_eof B k hk]
    simp [List.drop_length]
  | succ m ih =>
    intro off acc h1 h2
    by_cases hoff : off = B.length
    · subst hoff
      rw [drainLoop_succ, readerRead_eof B k hk]
      simp [List.drop_length]
    · have hlt : off < B.length := by omega
      have hr := readerRead_data B k off hlt hk
      have hclen : 0 < ((B.drop off).take k).length ∧
          ((B.drop off).take k).length ≤ B.length - off := by
        constructor <;> simp only [List.length_take, List.length_drop] <;> omega
      rw [drainLoop_succ, hr]
      simp only [reduceCtorEq, if_false, if_true]
      rw [ih (off + ((B.drop off).take k).length) (acc ++ (B.drop off).take k)
        (by omega) (by omega)]
      rw [List.append_assoc, take_drop_append]

/-- C2: write any byte sequence B in any number of Write calls on a
fresh Writer, Close it; the file then holds exactly B with published
size = length and the stream closed (first conjunct).  A Reader created
afterwards (cursor 0, attached to the closed Writer) drains exactly B —
every Read returns without blocking, Wait always returning immediately
because the stream is closed — and the next Read reports the terminal
(0, EOF) (src/unnamed/part_003:60-82, src/writer.go:40-47,56-67). -/
theorem roundtrip_closed_reader (chunks : List (List Nat)) (k : Nat) (hk : 0 < k) :
    runWriter (freshWriter false) (chunks.map WOp.write ++ [WOp.close]) =
      { closed := true, size := (chunks.flatten.length : Int),
        file := { content := chunks.flatten, closed := true,
                  closeFails := false, closeCount := 1 },
        onCloseCount := 1 } ∧
    drainLoop chunks.flatten (chunks.flatten.length : Int) true k (chunks.flatten.length + 1) 0 [] =
      some chunks.flatten ∧
    readerRead chunks.flatten (chunks.flatten.length : Int) true k 2 chunks.flatten.length =
      some ([], some Err.eof, chunks.flatten.length) := by
  refine ⟨?_, ?_, readerRead_eof _ k hk⟩
  · have h := writer_run_spec chunks false
    simpa using h
  · have h := drain_spec chunks.flatten k hk chunks.flatten.length 0 [] (by omega) (by omega)
    simpa using h

/-- C2 witness: B = [1,2,3] written as two chunks, drained with a
2-byte buffer. -/
theorem roundtrip_closed_reader_witness :
    0 < 2 ∧
    drainLoop [1, 2, 3] (3 : Int) true 2 4 0 [] = some [1, 2, 3] :=
  ⟨by decide, (roundtrip_closed_reader [[1, 2], [3]] 2 (by decide)).2.1⟩

/-- C1: counterexample to single-writer-per-key.  Two Get calls on the
same absent key that both pass the shared-lock lookup before either
takes the exclusive lock BOTH return non-absent writers, because the
exclusive section of cache.Get (src/fscache.go:217-235) inserts without
re-checking the registry; the second insert also overwrites the first
Stream in the registry.  The claim requires at most one non-absent
writer with no intervening Remove; this valid interleaving yields
two. -/
theorem concurrent_get_two_writers :
    getRun "d" getInit
        [GetLabel.lookupOne, GetLabel.lookupTwo, GetLabel.insertOne, GetLabel.insertTwo] =
      some { reg := [("d", 1)], nextId := 2,
             t1 := { pc := GPc.done, writerOut := some 0, gotReader := true },
             t2 := { pc := GPc.done, writerOut := some 1, gotReader := true } } := by
  rfl

/-- C3: counterexample trace.  A NextReader that passed its isRemoving
check (src/stream.go:190) is overtaken by a full Remove mark and a
grp.Wait that sees a drained WaitGroup; the NextReader then runs inc
(src/stream.go:204-209), and the unlink step of Remove
(src/stream.go:175) fires from a configuration whose live-handle count
is 1 — the file is unlinked while the handle count is greater than
zero. -/
theorem remove_unlinks_while_handle_open :
    raceRun raceInit [RaceLabel.nrCheck, RaceLabel.rmMark, RaceLabel.rmWait, RaceLabel.nrInc] =
      some { removing := true, cnt := 1, grp := 1, fileExists := true,
             nr := NrPc.inced, rm := RmPc.waited } ∧
    raceRun raceInit
        [RaceLabel.nrCheck, RaceLabel.rmMark, RaceLabel.rmWait, RaceLabel.nrInc, RaceLabel.rmUnlink] =
      some { removing := true, cnt := 1, grp := 1, fileExists := false,
             nr := NrPc.inced, rm := RmPc.done } := by
  constructor <;> rfl

/-- C4: counterexample trace.  The removing check (isRemoving,
src/stream.go:178-184) and the handle-count increment (inc,
src/stream.go:204-209) are separate critical sections of s.mu, so a
Remove can set the mark between them: the in-flight NextReader, its
check already passed, increments the handle count after the mark and
attaches a Reader while removing is true. -/
theorem reader_attaches_after_removing_mark :
    raceRun raceInit [RaceLabel.nrCheck, RaceLabel.rmMark] =
      some { removing := true, cnt := 0, grp := 0, fileExists := true,
             nr := NrPc.passed, rm := RmPc.marked } ∧
    raceRun raceInit [RaceLabel.nrCheck, RaceLabel.rmMark, RaceLabel.nrInc, RaceLabel.nrOpen] =
      some { removing := true, cnt := 1, grp := 1, fileExists := true,
             nr := NrPc.attached, rm := RmPc.marked } := by
  constructor <;> rfl

end Fscache
